import Mathlib

/-!
Verification development for the commet repository (src/commet.go), a
minimal local version-control engine with operations Init, Add, Commit
and Status over on-disk state rooted at `.commet/`.

The embedding models the on-disk state touched by the program as an `FS`
record: the control directory marker, the staging file `staged.json`
(absent, parsable, or unparsable), the per-hash commit files under
`commits/`, the working-tree files that `HashFile` reads, and a logical
clock counting calls to `time.Now()`. The SHA-1 hex digest and the
wall-clock rendering are opaque to every claim, so they are parameters
of an `Env` record rather than re-implementations; theorems quantify
over them. Each operation is translated statement by statement from the
Go source; the mutating operations also return the ordered list of
on-disk states they pass through, so that crash/interruption points and
write ordering are expressible.
-/

deriving instance DecidableEq for Except

namespace Commet

/-- Digest and clock environment: `sha1hex` is
`hex.EncodeToString(sha1.Sum(bytes))` as one opaque function from input
bytes (modelled as a `String`) to the hex digest; `now` renders the
`n`-th call of `time.Now().String()` in the process. -/
structure Env where
  sha1hex : String → String
  now : Nat → String

/-- One element of the `staged.json` array: the Go code stores
`map[string]string{"path": ..., "hash": ...}` (src/commet.go:63-66). -/
structure Entry where
  path : String
  hash : String
deriving DecidableEq

/-- Contents of the staging file when it exists: either a JSON array
that decodes to a list of entries, or bytes on which
`json.Decoder.Decode` fails (e.g. the empty file that `os.Create`
leaves before the encoder has run). -/
inductive StagedData where
  | valid (entries : List Entry)
  | corrupt
deriving DecidableEq

/-- The Commit record of src/commet.go:16-21. -/
structure Commit where
  hash : String
  message : String
  timestamp : String
  files : List String
deriving DecidableEq

/-- On-disk state plus the logical clock.
`commits` is an association list from file name (the commit hash) to the
record stored in `.commet/commits/<hash>`; `List.lookup` is the
observation "read the file named h", and `os.WriteFile` is prepending,
which shadows any older entry of the same name. `workFiles` maps a
working-tree path to its byte contents. `tick` counts `time.Now()`
calls already made. -/
structure FS where
  vcsDir : Bool
  staged : Option StagedData
  commitsDir : Bool
  commits : List (String × Commit)
  workFiles : List (String × String)
  tick : Nat
deriving DecidableEq

/-- A fresh working directory holding `workFiles`: no `.commet`
directory, no staging file, no commits. -/
def FS.initial (workFiles : List (String × String)) : FS :=
  { vcsDir := false
    staged := none
    commitsDir := false
    commits := []
    workFiles := workFiles
    tick := 0 }

/-- src/commet.go:33-42. `os.Stat` on an existing `.commet` makes
`!os.IsNotExist(err)` true, so Init fails; otherwise `os.Mkdir`
creates the control directory. -/
def Repo.Init (s : FS) : Except String Unit × FS :=
  if s.vcsDir then
    (.error "repository already initialized", s)
  else
    (.ok (), { s with vcsDir := true })

/-- src/commet.go:44-55: open the working-tree file (failure when it
does not exist), stream it through `sha1.New()`, hex-encode the sum. -/
def Repo.HashFile (env : Env) (s : FS) (filePath : String) :
    Except String String :=
  match s.workFiles.lookup filePath with
  | none => .error ("open " ++ filePath ++ ": no such file or directory")
  | some contents => .ok (env.sha1hex contents)

/-- src/commet.go:67-77: `os.Stat` on `staged.json`; when it exists,
open and JSON-decode it into a `[]map[string]string` (decode failure is
returned to the caller); when it is absent the slice stays `nil`. -/
def loadStagedForAdd (s : FS) : Except String (List Entry) :=
  match s.staged with
  | none => .ok []
  | some (StagedData.valid staged) => .ok staged
  | some StagedData.corrupt => .error "invalid staged.json"

/-- src/commet.go:57-89, with every on-disk state the execution passes
through, in order and starting from the input state. After hashing the
file and loading the current array, `staged = append(staged, fileData)`;
then `os.Create(stagedFile)` truncates the staging file in place (a
created-but-not-yet-encoded file is empty, hence unparsable: state with
`some .corrupt`), and `json.Encoder.Encode` writes the new array.
`os.Create` fails when the `.commet` directory does not exist. -/
def Repo.AddTrace (env : Env) (s : FS) (filePath : String) :
    Except String Unit × List FS :=
  match Repo.HashFile env s filePath with
  | .error e => (.error e, [s])
  | .ok fileHash =>
    let fileData : Entry := { path := filePath, hash := fileHash }
    match loadStagedForAdd s with
    | .error e => (.error e, [s])
    | .ok staged =>
      let newStaged := staged ++ [fileData]
      if s.vcsDir then
        let s1 := { s with staged := some StagedData.corrupt }
        let s2 := { s with staged := some (StagedData.valid newStaged) }
        (.ok (), [s, s1, s2])
      else
        (.error ("open staged.json: no such file or directory"), [s])

/-- Result and final on-disk state of `Add`. -/
def Repo.Add (env : Env) (s : FS) (filePath : String) :
    Except String Unit × FS :=
  let r := Repo.AddTrace env s filePath
  (r.1, r.2.getLastD s)

/-- The record built at src/commet.go:102-110: the hash is the digest of
`message + time.Now().String()` (the first `time.Now()` call, clock
position `s.tick`), the `Timestamp` field is a second, separate
`time.Now().String()` call (clock position `s.tick + 1`), and `Files`
is always the empty slice. -/
def Repo.commitRecord (env : Env) (s : FS) (message : String) : Commit :=
  { hash := env.sha1hex (message ++ env.now s.tick)
    message := message
    timestamp := env.now (s.tick + 1)
    files := [] }

/-- src/commet.go:91-126, with every on-disk state the execution passes
through. `os.Open(stagedFile)` fails exactly when the staging file is
absent ("no changes to commit"); a file that exists but does not decode
fails with "failed to read staged files"; otherwise the commit record
is built (its construction consumes the two clock positions),
`os.MkdirAll` creates the commits directory, `os.WriteFile` stores the
record under its hash, and `os.Remove(stagedFile)` runs with its error
discarded — `removeOk` says whether that removal succeeded. -/
def Repo.CommitTrace (env : Env) (removeOk : Bool) (s : FS)
    (message : String) : Except String Unit × List FS :=
  match s.staged with
  | none => (.error "no changes to commit", [s])
  | some StagedData.corrupt => (.error "failed to read staged files", [s])
  | some (StagedData.valid _staged) =>
    let commit := Repo.commitRecord env s message
    let s1 := { s with commitsDir := true, tick := s.tick + 2 }
    let s2 := { s1 with commits := (commit.hash, commit) :: s1.commits }
    let s3 := if removeOk then { s2 with staged := none } else s2
    (.ok (), [s, s1, s2, s3])

/-- Result and final on-disk state of `Commit`. -/
def Repo.Commit (env : Env) (removeOk : Bool) (s : FS)
    (message : String) : Except String Unit × FS :=
  let r := Repo.CommitTrace env removeOk s message
  (r.1, r.2.getLastD s)

/-- What `Status` reports: the "No changes staged." line, or the listed
staged paths in order. -/
inductive StatusReport where
  | noChanges
  | changes (paths : List String)
deriving DecidableEq

/-- src/commet.go:128-152: absent staging file reports no changes; an
unparsable one returns the decode error; a decoded array reports no
changes when empty and otherwise lists each entry's `path` in order. -/
def Repo.Status (s : FS) : Except String StatusReport :=
  match s.staged with
  | none => .ok StatusReport.noChanges
  | some StagedData.corrupt => .error "invalid staged.json"
  | some (StagedData.valid staged) =>
    if staged.length = 0 then .ok StatusReport.noChanges
    else .ok (StatusReport.changes (staged.map Entry.path))

/-- Run `Add` on each path in turn, stopping at the first failure. -/
def Repo.addAll (env : Env) (s : FS) (paths : List String) :
    Except String Unit × FS :=
  match paths with
  | [] => (.ok (), s)
  | p :: rest =>
    match Repo.Add env s p with
    | (.ok _, s1) => Repo.addAll env s1 rest
    | (.error e, s1) => (.error e, s1)

/-- Concrete digest/clock instance used to evaluate the model on
concrete inputs: the digest is the identity on the input bytes and the
clock renders tick `n` as `"t<n>"`. -/
def testEnv : Env :=
  { sha1hex := fun input => input
    now := fun n => (["t0", "t1", "t2", "t3"].getD n "tz") }

/-- An initialized repository with one entry staged and two
working-tree files. -/
def testFS : FS :=
  { vcsDir := true
    staged := some (StagedData.valid [⟨"a.txt", "h1"⟩])
    commitsDir := false
    commits := []
    workFiles := [("a.txt", "alpha"), ("b.txt", "beta")]
    tick := 0 }

/-- An initialized repository with nothing staged. -/
def initFS : FS :=
  { FS.initial [("a.txt", "alpha"), ("b.txt", "beta")] with vcsDir := true }

/-- `Status` after a state whose staging file loads as the sequence `l`
reports no changes when `l` is empty and the listed paths otherwise. -/
theorem status_of_load (s : FS) (l : List Entry)
    (hs : loadStagedForAdd s = .ok l) :
    Repo.Status s =
      .ok (if l.map Entry.path = [] then StatusReport.noChanges
           else StatusReport.changes (l.map Entry.path)) := by
  cases h2 : s.staged with
  | none =>
    simp [loadStagedForAdd, h2] at hs
    subst hs
    simp [Repo.Status, h2]
  | some d =>
    cases d with
    | corrupt => simp [loadStagedForAdd, h2] at hs
    | valid l0 =>
      simp [loadStagedForAdd, h2] at hs
      subst hs
      cases l0 <;> simp [Repo.Status, h2]

/-- Effect of a successful `Add`: the staged sequence grows by exactly
the one entry for the added path, and nothing else changes. -/
theorem add_ok (env : Env) (s : FS) (p c : String) (l : List Entry)
    (hv : s.vcsDir = true) (hs : loadStagedForAdd s = .ok l)
    (hw : s.workFiles.lookup p = some c) :
    Repo.Add env s p =
      (.ok (),
        { s with staged := some (StagedData.valid (l ++ [⟨p, env.sha1hex c⟩])) }) := by
  simp [Repo.Add, Repo.AddTrace, Repo.HashFile, hw, hs, hv, List.getLastD]

/-- Running `Add` over a list of paths that all hash successfully
appends exactly those paths, in order, to the staged sequence. -/
theorem addAll_ok (env : Env) (paths : List String) :
    ∀ (s : FS) (l : List Entry), s.vcsDir = true →
      loadStagedForAdd s = .ok l →
      (∀ p ∈ paths, (s.workFiles.lookup p).isSome = true) →
      (Repo.addAll env s paths).1 = .ok () ∧
      (Repo.addAll env s paths).2.vcsDir = true ∧
      (Repo.addAll env s paths).2.workFiles = s.workFiles ∧
      ∃ l2, loadStagedForAdd (Repo.addAll env s paths).2 = .ok l2 ∧
        l2.map Entry.path = l.map Entry.path ++ paths := by
  induction paths with
  | nil =>
    intro s l hv hs _hw
    exact ⟨rfl, hv, rfl, l, hs, by simp⟩
  | cons p rest ih =>
    intro s l hv hs hw
    obtain ⟨c, hc⟩ := Option.isSome_iff_exists.mp (hw p (by simp))
    rw [Repo.addAll, add_ok env s p c l hv hs hc]
    have hres := ih
      { s with staged := some (StagedData.valid (l ++ [⟨p, env.sha1hex c⟩])) }
      (l ++ [⟨p, env.sha1hex c⟩]) hv (by simp [loadStagedForAdd])
      (fun q hq => hw q (by simp [hq]))
    obtain ⟨h1, h2, h3, l2, hl2, hmap⟩ := hres
    exact ⟨h1, h2, h3, l2, hl2, by simp [hmap]⟩

/-- Claim C1 (code_bug evidence): on a repository with the path
`"a.txt"` staged, `Commit` succeeds and the record it stores under its
hash carries `files = []`, not the staged sequence's paths
(`["a.txt"]`): src/commet.go:109 hard-codes the empty slice. -/
theorem claim_C1_files_left_empty :
    loadStagedForAdd testFS = .ok [⟨"a.txt", "h1"⟩] ∧
    (Repo.Commit testEnv true testFS "msg").1 = .ok () ∧
    (Repo.Commit testEnv true testFS "msg").2.commits.lookup
        (Repo.commitRecord testEnv testFS "msg").hash =
      some (Repo.commitRecord testEnv testFS "msg") ∧
    (Repo.commitRecord testEnv testFS "msg").files = [] ∧
    (Repo.commitRecord testEnv testFS "msg").files ≠ ["a.txt"] := by
  decide

/-- Claim C2 (code_bug evidence): `Commit` on an absent staging file
fails with "no changes to commit" and writes nothing, but on a staging
file that exists and holds the empty sequence it succeeds and writes a
commit record — the two cases are not treated identically
(src/commet.go:93-96 only catches the failed `os.Open`). -/
theorem claim_C2_empty_sequence_commits :
    (Repo.Commit testEnv true (FS.initial []) "msg").1 =
      .error "no changes to commit" ∧
    (Repo.Commit testEnv true (FS.initial []) "msg").2.commits = [] ∧
    (Repo.Commit testEnv true
        { testFS with staged := some (StagedData.valid []) } "msg").1 =
      .ok () ∧
    (Repo.Commit testEnv true
        { testFS with staged := some (StagedData.valid []) } "msg").2.commits ≠
      [] := by
  decide

/-- Claim C3 (counterexample): with a digest that is the identity and a
clock that yields `"t0"` then `"t1"`, the stored commit's hash is the
digest of the message paired with instant `"t0"`, while the recorded
timestamp field is `"t1"` — so the hash is not the digest of
`(message, recorded timestamp)`: the code calls `time.Now()` twice
(src/commet.go:103 and :108). -/
theorem claim_C3_hash_vs_timestamp :
    (Repo.Commit testEnv true testFS "m").1 = .ok () ∧
    (Repo.Commit testEnv true testFS "m").2.commits =
      [((Repo.commitRecord testEnv testFS "m").hash,
        Repo.commitRecord testEnv testFS "m")] ∧
    (Repo.commitRecord testEnv testFS "m").hash ≠
      testEnv.sha1hex ("m" ++ (Repo.commitRecord testEnv testFS "m").timestamp) := by
  decide

/-- Claim C3 (amended): every successful `Commit` stores a record whose
hash is the digest of the message concatenated with the instant sampled
first (clock position `tick`), while the timestamp field records a
second, separately sampled instant (clock position `tick + 1`); the two
instants need not coincide. -/
theorem claim_C3_hash_from_message_and_instant (env : Env)
    (removeOk : Bool) (s : FS) (message : String) (l : List Entry)
    (hs : s.staged = some (StagedData.valid l)) :
    (Repo.Commit env removeOk s message).1 = .ok () ∧
    (Repo.Commit env removeOk s message).2.commits.lookup
        (Repo.commitRecord env s message).hash =
      some (Repo.commitRecord env s message) ∧
    (Repo.commitRecord env s message).hash =
      env.sha1hex (message ++ env.now s.tick) ∧
    (Repo.commitRecord env s message).timestamp = env.now (s.tick + 1) := by
  cases removeOk <;>
    simp [Repo.Commit, Repo.CommitTrace, Repo.commitRecord, hs,
      List.getLastD, List.lookup]

/-- Claim C3 witness: the amended statement evaluated on a concrete
repository and clock. -/
theorem claim_C3_hash_witness :
    (Repo.Commit testEnv true testFS "m").1 = .ok () ∧
    (Repo.Commit testEnv true testFS "m").2.commits.lookup
        (Repo.commitRecord testEnv testFS "m").hash =
      some (Repo.commitRecord testEnv testFS "m") ∧
    (Repo.commitRecord testEnv testFS "m").hash =
      testEnv.sha1hex ("m" ++ testEnv.now testFS.tick) ∧
    (Repo.commitRecord testEnv testFS "m").timestamp =
      testEnv.now (testFS.tick + 1) :=
  claim_C3_hash_from_message_and_instant testEnv true testFS "m"
    [⟨"a.txt", "h1"⟩] (by decide)

/-- Claim C6 (code_bug evidence): `Add` on a repository whose staging
file holds one entry passes through an intermediate on-disk state in
which the staging file exists but is unparsable — `os.Create`
(src/commet.go:79) truncates `staged.json` in place before the encoder
writes, so an interruption there loses the previously persisted
sequence instead of leaving it intact. -/
theorem claim_C6_truncate_before_write :
    testFS.staged = some (StagedData.valid [⟨"a.txt", "h1"⟩]) ∧
    (Repo.AddTrace testEnv testFS "b.txt").1 = .ok () ∧
    { testFS with staged := some StagedData.corrupt } ∈
      (Repo.AddTrace testEnv testFS "b.txt").2 := by
  decide

/-- Claim C4: in every execution of `Commit` — every on-disk state its
trace passes through, for any staging-removal outcome — a state whose
staging area differs from the input state already holds the commit
record under its hash: the record is durably saved strictly before the
staging file is removed, and the staging file is never removed in a run
that did not first write the record. -/
theorem claim_C4_save_before_clear (env : Env) (removeOk : Bool) (s : FS)
    (message : String) (t : FS)
    (ht : t ∈ (Repo.CommitTrace env removeOk s message).2)
    (hcl : t.staged ≠ s.staged) :
    t.commits.lookup (Repo.commitRecord env s message).hash =
      some (Repo.commitRecord env s message) := by
  cases h2 : s.staged with
  | none =>
    simp [Repo.CommitTrace, h2] at ht
    subst ht
    exact absurd rfl hcl
  | some d =>
    cases d with
    | corrupt =>
      simp [Repo.CommitTrace, h2] at ht
      subst ht
      exact absurd rfl hcl
    | valid l =>
      cases removeOk <;> simp [Repo.CommitTrace, h2] at ht <;>
        rcases ht with rfl | rfl | rfl | rfl <;>
        first
          | exact absurd rfl hcl
          | exact absurd h2.symm hcl
          | simp [List.lookup]

/-- Claim C4 witness: the final state of a concrete successful `Commit`
cleared the staging area and holds the record under its hash. -/
theorem claim_C4_save_before_clear_witness :
    (Repo.Commit testEnv true testFS "m").2.commits.lookup
        (Repo.commitRecord testEnv testFS "m").hash =
      some (Repo.commitRecord testEnv testFS "m") :=
  claim_C4_save_before_clear testEnv true testFS "m"
    (Repo.Commit testEnv true testFS "m").2 (by decide) (by decide)

/-- Claim C5: the staging area is empty before any add (the initial
working directory has no staging file and `Status` reports no changes)
and immediately after every successful `Commit` whose staging-file
removal went through: the final state has no staging file and a
subsequent `Status` reports no staged changes. -/
theorem claim_C5_staging_empty (env : Env) (s : FS) (message : String)
    (hok : (Repo.Commit env true s message).1 = .ok ()) :
    (Repo.Commit env true s message).2.staged = none ∧
    Repo.Status (Repo.Commit env true s message).2 =
      .ok StatusReport.noChanges ∧
    ∀ workFiles : List (String × String),
      (FS.initial workFiles).staged = none ∧
      Repo.Status (FS.initial workFiles) = .ok StatusReport.noChanges := by
  cases h2 : s.staged with
  | none => simp [Repo.Commit, Repo.CommitTrace, h2] at hok
  | some d =>
    cases d with
    | corrupt => simp [Repo.Commit, Repo.CommitTrace, h2] at hok
    | valid l =>
      refine ⟨?_, ?_, fun workFiles => ⟨rfl, rfl⟩⟩ <;>
        simp [Repo.Commit, Repo.CommitTrace, h2, List.getLastD, Repo.Status]

/-- Claim C5 witness: the statement evaluated on a concrete repository
with one staged entry. -/
theorem claim_C5_staging_empty_witness :
    (Repo.Commit testEnv true testFS "m").2.staged = none ∧
    Repo.Status (Repo.Commit testEnv true testFS "m").2 =
      .ok StatusReport.noChanges ∧
    ∀ workFiles : List (String × String),
      (FS.initial workFiles).staged = none ∧
      Repo.Status (FS.initial workFiles) = .ok StatusReport.noChanges :=
  claim_C5_staging_empty testEnv testFS "m" (by decide)

/-- Claim C7: starting from an initialized repository with no staging
file, running `Add` on any list of paths whose working-tree files all
exist succeeds, and `Status` then lists exactly those paths in
insertion order, duplicates preserved (and reports no changes when the
list is empty). -/
theorem claim_C7_status_lists_adds (env : Env) (s : FS)
    (paths : List String) (hv : s.vcsDir = true) (hs : s.staged = none)
    (hw : ∀ p ∈ paths, (s.workFiles.lookup p).isSome = true) :
    (Repo.addAll env s paths).1 = .ok () ∧
    Repo.Status (Repo.addAll env s paths).2 =
      .ok (if paths.isEmpty then StatusReport.noChanges
           else StatusReport.changes paths) := by
  obtain ⟨h1, _h2, _h3, l2, hl2, hmap⟩ :=
    addAll_ok env paths s [] hv (by simp [loadStagedForAdd, hs]) hw
  refine ⟨h1, ?_⟩
  rw [status_of_load _ _ hl2, hmap]
  simp [List.isEmpty_iff]

/-- Claim C7 witness: adding `"a.txt"` twice lists it twice, and adding
`"a.txt"` then `"b.txt"` lists both in that order. -/
theorem claim_C7_status_lists_adds_witness :
    ((Repo.addAll testEnv initFS ["a.txt", "a.txt"]).1 = .ok () ∧
      Repo.Status (Repo.addAll testEnv initFS ["a.txt", "a.txt"]).2 =
        .ok (if (["a.txt", "a.txt"] : List String).isEmpty
             then StatusReport.noChanges
             else StatusReport.changes ["a.txt", "a.txt"])) ∧
    ((Repo.addAll testEnv initFS ["a.txt", "b.txt"]).1 = .ok () ∧
      Repo.Status (Repo.addAll testEnv initFS ["a.txt", "b.txt"]).2 =
        .ok (if (["a.txt", "b.txt"] : List String).isEmpty
             then StatusReport.noChanges
             else StatusReport.changes ["a.txt", "b.txt"])) :=
  ⟨claim_C7_status_lists_adds testEnv initFS ["a.txt", "a.txt"]
      (by decide) (by decide) (by decide),
    claim_C7_status_lists_adds testEnv initFS ["a.txt", "b.txt"]
      (by decide) (by decide) (by decide)⟩

/-- Claim C8: in every execution, every on-disk state `Add` passes
through (success or failure) has the commit files and the commits
directory unchanged, and every on-disk state `Commit` passes through
has a staging file that is either exactly the input one or removed —
`Commit` never adds a staged entry. -/
theorem claim_C8_frame (env : Env) (removeOk : Bool) (s : FS)
    (filePath message : String) :
    (∀ t ∈ (Repo.AddTrace env s filePath).2,
        t.commits = s.commits ∧ t.commitsDir = s.commitsDir) ∧
    (∀ t ∈ (Repo.CommitTrace env removeOk s message).2,
        t.staged = s.staged ∨ t.staged = none) := by
  constructor
  · intro t ht
    cases h1 : Repo.HashFile env s filePath with
    | error e =>
      simp [Repo.AddTrace, h1] at ht
      subst ht
      exact ⟨rfl, rfl⟩
    | ok fh =>
      cases h2 : loadStagedForAdd s with
      | error e =>
        simp [Repo.AddTrace, h1, h2] at ht
        subst ht
        exact ⟨rfl, rfl⟩
      | ok staged =>
        cases h3 : s.vcsDir with
        | false =>
          simp [Repo.AddTrace, h1, h2, h3] at ht
          subst ht
          exact ⟨rfl, rfl⟩
        | true =>
          simp [Repo.AddTrace, h1, h2, h3] at ht
          rcases ht with rfl | rfl | rfl <;> exact ⟨rfl, rfl⟩
  · intro t ht
    cases h2 : s.staged with
    | none =>
      simp [Repo.CommitTrace, h2] at ht
      subst ht
      simp [h2]
    | some d =>
      cases d with
      | corrupt =>
        simp [Repo.CommitTrace, h2] at ht
        subst ht
        simp [h2]
      | valid l =>
        cases removeOk <;> simp [Repo.CommitTrace, h2] at ht <;>
          rcases ht with rfl | rfl | rfl | rfl <;>
          first
            | exact Or.inl rfl
            | exact Or.inl h2
            | exact Or.inr rfl

/-- Claim C8 witness: a concrete `Add` leaves the commit files
unchanged and a concrete `Commit` does not add staged entries. -/
theorem claim_C8_frame_witness :
    (Repo.Add testEnv testFS "b.txt").2.commits = testFS.commits ∧
    ((Repo.Commit testEnv true testFS "m").2.staged = testFS.staged ∨
      (Repo.Commit testEnv true testFS "m").2.staged = none) :=
  ⟨((claim_C8_frame testEnv true testFS "b.txt" "m").1
      (Repo.Add testEnv testFS "b.txt").2 (by decide)).1,
    (claim_C8_frame testEnv true testFS "b.txt" "m").2
      (Repo.Commit testEnv true testFS "m").2 (by decide)⟩

/-- Claim C9: `Init` on a root without the control directory succeeds
and creates exactly it; a second `Init` on the same root fails with
"repository already initialized" and changes nothing, so the directory
is created exactly once and the repository stays initialized. -/
theorem claim_C9_init_twice (s : FS) (hv : s.vcsDir = false) :
    (Repo.Init s).1 = .ok () ∧
    (Repo.Init s).2 = { s with vcsDir := true } ∧
    (Repo.Init (Repo.Init s).2).1 =
      .error "repository already initialized" ∧
    (Repo.Init (Repo.Init s).2).2 = (Repo.Init s).2 := by
  simp [Repo.Init, hv]

/-- Claim C9 witness: the statement evaluated on a fresh working
directory. -/
theorem claim_C9_init_twice_witness :
    (Repo.Init (FS.initial [])).1 = .ok () ∧
    (Repo.Init (FS.initial [])).2 = { FS.initial [] with vcsDir := true } ∧
    (Repo.Init (Repo.Init (FS.initial [])).2).1 =
      .error "repository already initialized" ∧
    (Repo.Init (Repo.Init (FS.initial [])).2).2 =
      (Repo.Init (FS.initial [])).2 :=
  claim_C9_init_twice (FS.initial []) (by decide)

/-- Claim C10: when removing the staging file fails, `Commit` still
reports success and the staging file keeps its previous (possibly
non-empty) contents: src/commet.go:123 discards the `os.Remove`
error. -/
theorem claim_C10_remove_error_discarded (env : Env) (s : FS)
    (message : String) (l : List Entry)
    (hs : s.staged = some (StagedData.valid l)) :
    (Repo.Commit env false s message).1 = .ok () ∧
    (Repo.Commit env false s message).2.staged =
      some (StagedData.valid l) := by
  simp [Repo.Commit, Repo.CommitTrace, hs, List.getLastD]

/-- Claim C10 witness: a concrete commit whose staging-file removal
fails reports success while one entry stays staged on disk. -/
theorem claim_C10_remove_error_discarded_witness :
    (Repo.Commit testEnv false testFS "m").1 = .ok () ∧
    (Repo.Commit testEnv false testFS "m").2.staged =
      some (StagedData.valid [⟨"a.txt", "h1"⟩]) :=
  claim_C10_remove_error_discarded testEnv testFS "m" [⟨"a.txt", "h1"⟩]
    (by decide)

end Commet
